import Mathlib

/-
Verification of the yt-dlp-web download scheduler core.

The Go sources are embedded shallowly:
* `Task` (as `DTask`, since `Task` is taken by Lean core) mirrors `internal/download/task.go` (exported fields; the runtime
  handles `cmd`/`cancel`/`mu` are process-level resources with no effect on
  the fields modelled here).
* The output parser (`ParseLine`, `cleanTitle` and the five regular
  expressions) mirrors the parser source file.  Go's `regexp` package uses
  leftmost-first (backtracking-preference) matching; the engine below
  implements exactly that discipline for the constructs these five patterns
  use (literals, character classes, greedy `+`/`*` over classes, greedy
  optional groups, capture groups, end anchor).
* `Manager` and its operations mirror `internal/download/manager.go`
  (the later revision, with `sendQueue`, guarded `Retry` and
  `removeTaskFiles`).  Timestamps are abstract `Nat` instants supplied by the
  caller; the Go `select` in `sendQueue` resolves a race between the closed
  `done` channel and a ready queue send by uniform pseudo-random choice,
  modelled by an explicit boolean oracle `pick`.
* `float64` percent values are modelled as exact rationals: the only writes
  are decimal literals parsed from tool output, and equality with the decimal
  literals used in the specification is preserved by the rational model.
-/

inductive TaskStatus where
  | queued
  | running
  | paused
  | completed
  | failed
  | cancelled
deriving DecidableEq, Repr

/-- The string value of each status constant in `task.go`. -/
def statusStr : TaskStatus → String
  | .queued => "queued"
  | .running => "running"
  | .paused => "paused"
  | .completed => "completed"
  | .failed => "failed"
  | .cancelled => "cancelled"

/-- Exported fields of the Go `Task` (as `DTask`, since `Task` is taken by Lean core) struct. -/
structure DTask where
  id : String
  url : String
  title : String
  status : TaskStatus
  progress : String
  percent : Rat
  size : String
  speed : String
  eta : String
  filename : String
  error : String
  logs : List String
  args : List String
  createdAt : Nat
  updatedAt : Nat
deriving DecidableEq, Repr

/-- `NewTask` from `task.go`, with the random id and creation instant
supplied by the caller. -/
def newTask (id url : String) (args : List String) (now : Nat) : DTask :=
  { id := id, url := url, title := url, status := .queued,
    progress := "0%", percent := 0, size := "", speed := "", eta := "",
    filename := "", error := "", logs := [], args := args,
    createdAt := now, updatedAt := now }

/-- The append-then-truncate step shared by `Task.AddLog` and
`Manager.failTask`: append one line, keep only the last 500. -/
def capAppend (logs : List String) (line : String) : List String :=
  let l := logs ++ [line]
  if 500 < l.length then l.drop (l.length - 500) else l

/-- `Task.AddLog` from `task.go`. -/
def DTask.addLog (t : DTask) (line : String) (now : Nat) : DTask :=
  { t with logs := capAppend t.logs line, updatedAt := now }

/-! ## Regular-expression engine (leftmost-first, as Go `regexp`) -/

/-- Regex syntax covering the constructs the five parser patterns use.
`star`/`plus` quantify single-character classes only, which is all the
source patterns need. -/
inductive RE where
  | eps : RE
  | cls : (Char → Bool) → RE
  | lit : List Char → RE
  | seq : RE → RE → RE
  | opt : RE → RE
  | star : (Char → Bool) → RE
  | plus : (Char → Bool) → RE
  | group : Nat → RE → RE
  | eol : RE

/-- Capture list: group index paired with the captured characters. -/
abbrev Caps := List (Nat × List Char)

/-- Strip a literal prefix. -/
def dropPre : List Char → List Char → Option (List Char)
  | [], s => some s
  | _ :: _, [] => none
  | c :: l, d :: s => if c = d then dropPre l s else none

/-- Greedy repetition backtracking: try consuming `n` characters first,
then fewer, invoking the continuation at each length. -/
def starTry (s : List Char) (caps : Caps)
    (k : List Char → Caps → Option Caps) : Nat → Option Caps
  | 0 => k s caps
  | n + 1 =>
    match k (s.drop (n + 1)) caps with
    | some r => some r
    | none => starTry s caps k n

/-- Backtracking matcher in continuation style.  Alternatives are tried in
greedy-preference order, which is Go `regexp`'s leftmost-first semantics. -/
def mtch : RE → List Char → Caps → (List Char → Caps → Option Caps) → Option Caps
  | RE.eps, s, caps, k => k s caps
  | RE.cls p, s, caps, k =>
    match s with
    | [] => none
    | c :: rest => if p c then k rest caps else none
  | RE.lit l, s, caps, k =>
    match dropPre l s with
    | some rest => k rest caps
    | none => none
  | RE.seq a b, s, caps, k => mtch a s caps fun s2 caps2 => mtch b s2 caps2 k
  | RE.opt r, s, caps, k =>
    match mtch r s caps k with
    | some res => some res
    | none => k s caps
  | RE.star p, s, caps, k => starTry s caps k (s.takeWhile p).length
  | RE.plus p, s, caps, k =>
    match s with
    | [] => none
    | c :: rest =>
      if p c then starTry rest caps k (rest.takeWhile p).length else none
  | RE.group n r, s, caps, k =>
    mtch r s caps fun s2 caps2 =>
      k s2 ((n, s.take (s.length - s2.length)) :: caps2)
  | RE.eol, s, caps, k =>
    match s with
    | [] => k s caps
    | _ => none

/-- Unanchored search: try each start position left to right, as
`Regexp.FindStringSubmatch` does. -/
def findFrom (r : RE) : List Char → Option Caps
  | [] =>
    match mtch r [] [] (fun _ caps => some caps) with
    | some caps => some caps
    | none => none
  | c :: t =>
    match mtch r (c :: t) [] (fun _ caps => some caps) with
    | some caps => some caps
    | none => findFrom r t

/-- `FindStringSubmatch` returning the capture list on a match. -/
def findSub (r : RE) (s : String) : Option Caps :=
  findFrom r s.data

/-- `m[n]` of a Go submatch result: empty string when the group did not
participate in the match. -/
def capGet (caps : Caps) (n : Nat) : String :=
  match caps.find? (fun pr => pr.fst == n) with
  | some pr => String.mk pr.snd
  | none => ""

/-! ## The five parser patterns -/

/-- Go regexp `\d` (ASCII digits). -/
def dCh (c : Char) : Bool := c.isDigit

/-- Go regexp `\s` (`[\t\n\f\r ]`). -/
def sCh (c : Char) : Bool :=
  c == '\t' || c == '\n' || c == '\x0c' || c == '\x0d' || c == ' '

/-- Go regexp `\w` (`[0-9A-Za-z_]`). -/
def wCh (c : Char) : Bool := c.isAlphanum || c == '_'

/-- Go regexp `.` (any character except newline). -/
def dotCh (c : Char) : Bool := c != '\n'

/-- Character class `[\d.]`. -/
def ddCh (c : Char) : Bool := c.isDigit || c == '.'

/-- Character class `[\d:]`. -/
def dcCh (c : Char) : Bool := c.isDigit || c == ':'

/-- Right-nested sequence of regexes. -/
def seqL (rs : List RE) : RE := rs.foldr RE.seq RE.eps

/-- Literal regex from a string. -/
def litS (s : String) : RE := RE.lit s.data

/-- `\[download\]\s+([\d.]+)%\s+of\s+~?\s*([\d.]+\s*\w+)`
`(?:\s+at\s+([\d.]+\s*\w+/s))?(?:\s+ETA\s+([\d:]+))?`  -/
def reProgress : RE := seqL
  [litS "[download]", RE.plus sCh, RE.group 1 (RE.plus ddCh), litS "%",
   RE.plus sCh, litS "of", RE.plus sCh, RE.opt (litS "~"), RE.star sCh,
   RE.group 2 (seqL [RE.plus ddCh, RE.star sCh, RE.plus wCh]),
   RE.opt (seqL [RE.plus sCh, litS "at", RE.plus sCh,
     RE.group 3 (seqL [RE.plus ddCh, RE.star sCh, RE.plus wCh, litS "/s"])]),
   RE.opt (seqL [RE.plus sCh, litS "ETA", RE.plus sCh,
     RE.group 4 (RE.plus dcCh)])]

/-- `\[download\]\s+100(?:\.0)?%\s+of\s+~?\s*([\d.]+\s*\w+)\s+in\s+([\d:]+)` -/
def reComplete : RE := seqL
  [litS "[download]", RE.plus sCh, litS "100", RE.opt (litS ".0"), litS "%",
   RE.plus sCh, litS "of", RE.plus sCh, RE.opt (litS "~"), RE.star sCh,
   RE.group 1 (seqL [RE.plus ddCh, RE.star sCh, RE.plus wCh]),
   RE.plus sCh, litS "in", RE.plus sCh, RE.group 2 (RE.plus dcCh)]

/-- `\[download\]\s+Destination:\s+(.+)$` -/
def reDestination : RE := seqL
  [litS "[download]", RE.plus sCh, litS "Destination:", RE.plus sCh,
   RE.group 1 (RE.plus dotCh), RE.eol]

/-- `\[Merger\]\s+Merging formats into "(.+)"` -/
def reMerger : RE := seqL
  [litS "[Merger]", RE.plus sCh, litS "Merging formats into \"",
   RE.group 1 (RE.plus dotCh), litS "\""]

/-- `\[download\]\s+(.+)\s+has already been downloaded` -/
def reAlreadyDl : RE := seqL
  [litS "[download]", RE.plus sCh, RE.group 1 (RE.plus dotCh),
   RE.plus sCh, litS "has already been downloaded"]

/-! ## Parser helpers -/

/-- Go `unicode.IsSpace` (the code points with Unicode property
White_Space, as listed in the Go `unicode` tables). -/
def goIsSpace (c : Char) : Bool :=
  c == '\t' || c == '\n' || c == '\x0b' || c == '\x0c' || c == '\x0d' ||
  c == ' ' || c.toNat == 0x85 || c.toNat == 0xa0 || c.toNat == 0x1680 ||
  (0x2000 ≤ c.toNat && c.toNat ≤ 0x200a) ||
  c.toNat == 0x2028 || c.toNat == 0x2029 || c.toNat == 0x202f ||
  c.toNat == 0x205f || c.toNat == 0x3000

/-- Drop leading and trailing spaces from a character list. -/
def goTrimChars (s : List Char) : List Char :=
  ((s.dropWhile goIsSpace).reverse.dropWhile goIsSpace).reverse

/-- Go `strings.TrimSpace`. -/
def goTrimSpace (s : String) : String :=
  String.mk (goTrimChars s.data)

/-- Decimal digit run to a natural number. -/
def digitsToNat (cs : List Char) : Nat :=
  cs.foldl (fun n c => n * 10 + (c.toNat - 48)) 0

/-- Go `strconv.ParseFloat` on the strings the progress capture `[\d.]+`
can produce: digits with at most one dot and at least one digit parse to
their exact decimal value, anything else is an error.  (Go rounds the
decimal to the nearest `float64`; the exact rational preserves equality
with the decimal literals the specification compares against.) -/
def parseGoFloat (s : String) : Option Rat :=
  let cs := s.data
  if cs.isEmpty then none
  else if ¬ cs.all (fun c => c.isDigit || c == '.') then none
  else if 1 < (cs.filter (fun c => c == '.')).length then none
  else if ¬ cs.any Char.isDigit then none
  else
    let ip := cs.takeWhile (fun c => c ≠ '.')
    let fp := (cs.dropWhile (fun c => c ≠ '.')).drop 1
    some (mkRat (digitsToNat (ip ++ fp)) ((10 : Nat) ^ fp.length))

/-- `cleanTitle` from the parser source: strip any path prefix, strip the
extension when the final dot is not at position zero, trim spaces. -/
def cleanTitleChars (s : List Char) : List Char :=
  let s1 := (s.reverse.takeWhile (fun c => ¬ (c = '/' ∨ c = '\\'))).reverse
  let s2 :=
    match s1.reverse.dropWhile (fun c => c ≠ '.') with
    | [] => s1
    | _ :: rest => if rest = [] then s1 else rest.reverse
  goTrimChars s2

/-- `cleanTitle` on strings. -/
def cleanTitle (filename : String) : String :=
  String.mk (cleanTitleChars filename.data)

/-- `ParseLine` from the parser source: try the five patterns in order,
apply the first match's field updates, report whether anything
progress-relevant changed.  The Go function mutates the task in place;
here it returns the updated task. -/
def ParseLine (line : String) (t : DTask) : Bool × DTask :=
  match findSub reProgress line with
  | some m =>
    let t1 := { t with progress := capGet m 1 ++ "%" }
    let t2 :=
      match parseGoFloat (capGet m 1) with
      | some pct => { t1 with percent := pct }
      | none => t1
    let t3 := { t2 with size := goTrimSpace (capGet m 2) }
    let t4 := if capGet m 3 ≠ "" then { t3 with speed := goTrimSpace (capGet m 3) } else t3
    let t5 := if capGet m 4 ≠ "" then { t4 with eta := capGet m 4 } else t4
    (true, t5)
  | none =>
  match findSub reComplete line with
  | some m =>
    (true, { t with progress := "100%", percent := 100,
                    size := goTrimSpace (capGet m 1), speed := "", eta := "done" })
  | none =>
  match findSub reDestination line with
  | some m =>
    let fn := goTrimSpace (capGet m 1)
    if t.title = t.url ∨ t.title = "" then
      (true, { t with filename := fn, title := cleanTitle fn })
    else
      (true, { t with filename := fn })
  | none =>
  match findSub reMerger line with
  | some m => (true, { t with filename := capGet m 1 })
  | none =>
  match findSub reAlreadyDl line with
  | some m =>
    let fn := goTrimSpace (capGet m 1)
    if t.title = t.url ∨ t.title = "" then
      (true, { t with progress := "100%", percent := 100,
                      filename := fn, title := cleanTitle fn })
    else
      (true, { t with progress := "100%", percent := 100, filename := fn })
  | none => (false, t)

/-! ## Scheduler state (`Manager` from `manager.go`)

The task registry is an association list with unique keys (the Go map plus
per-task pointers), `order` is the insertion-order slice, `queue` is the
buffered contents of the `chan string` of capacity `queueCap` (512 in
`NewManager`), and `done` records whether `Shutdown` has closed the `done`
channel.  Broadcasts have no effect on scheduler state and are not
modelled.  Timestamps (`time.Now()`) are abstract instants passed in. -/

structure Manager where
  tasks : List (String × DTask)
  order : List String
  queue : List String
  queueCap : Nat
  done : Bool
  downloadDir : String

/-- Go map indexing `m.tasks[id]`. -/
def lookupTask (m : Manager) (id : String) : Option DTask :=
  (m.tasks.find? (fun pr => pr.fst == id)).map Prod.snd

/-- Go map assignment `m.tasks[id] = t`. -/
def insertTask (ts : List (String × DTask)) (id : String) (t : DTask) :
    List (String × DTask) :=
  if ts.any (fun pr => pr.fst == id) then
    ts.map (fun pr => if pr.fst == id then (id, t) else pr)
  else ts ++ [(id, t)]

/-- In-place mutation of the task that `id` points to. -/
def Manager.updateTask (m : Manager) (id : String) (f : DTask → DTask) : Manager :=
  { m with tasks := m.tasks.map (fun pr => if pr.fst == id then (pr.fst, f pr.snd) else pr) }

/-- The saturation diagnostic `Submit`/`Resume`/`Retry` fail a task with. -/
def queueMsg : String := "queue full or shutting down, try again later"

/-- `failTask`: mark Failed, record the message, append an `ERROR:` log
line with the same 500-entry cap as `AddLog`. -/
def Manager.failTask (m : Manager) (id : String) (msg : String) (now : Nat) : Manager :=
  m.updateTask id fun t =>
    { t with status := .failed, error := msg,
             logs := capAppend t.logs ("ERROR: " ++ msg), updatedAt := now }

/-- `sendQueue`: a `select` over receiving from the closed `done` channel,
sending on the buffered queue, and a `default` case.  When `done` is closed
and the queue also has room both cases are ready and Go picks one uniformly
at random; the boolean oracle `pick` resolves that choice (`true` = the
send case). -/
def Manager.sendQueue (m : Manager) (id : String) (pick : Bool) : Bool × Manager :=
  if m.done then
    if m.queue.length < m.queueCap ∧ pick then (true, { m with queue := m.queue ++ [id] })
    else (false, m)
  else if m.queue.length < m.queueCap then (true, { m with queue := m.queue ++ [id] })
  else (false, m)

/-- `Submit`: register the task, append to `order`, broadcast, then try the
non-blocking enqueue; on rejection fail the task with `queueMsg`. -/
def Manager.submit (m : Manager) (t : DTask) (now : Nat) (pick : Bool) : Manager :=
  let m1 := { m with tasks := insertTask m.tasks t.id t, order := m.order ++ [t.id] }
  let r := m1.sendQueue t.id pick
  if r.fst then r.snd else r.snd.failTask t.id queueMsg now

/-- `Cancel`: running/queued/paused tasks become Cancelled (invoking the
process cancel trigger, a process-level effect); any other status is an
invalid transition reported without mutating anything. -/
def Manager.cancel (m : Manager) (id : String) (now : Nat) : Option String × Manager :=
  match lookupTask m id with
  | none => (some "not found", m)
  | some t =>
    match t.status with
    | .running => (none, m.updateTask id fun u => { u with status := .cancelled, updatedAt := now })
    | .queued => (none, m.updateTask id fun u => { u with status := .cancelled, updatedAt := now })
    | .paused => (none, m.updateTask id fun u => { u with status := .cancelled, updatedAt := now })
    | st => (some ("cannot cancel task in state " ++ statusStr st), m)

/-- `Pause`: only valid from Running; otherwise the fixed message
"not running". -/
def Manager.pause (m : Manager) (id : String) (now : Nat) : Option String × Manager :=
  match lookupTask m id with
  | none => (some "not found", m)
  | some t =>
    if t.status = .running then
      (none, m.updateTask id fun u => { u with status := .paused, updatedAt := now })
    else (some "not running", m)

/-- `Resume`: only valid from Paused or Failed; clears the error, sets
Queued, re-enqueues (failing the task on queue rejection); otherwise the
fixed message "not paused/failed". -/
def Manager.resume (m : Manager) (id : String) (now : Nat) (pick : Bool) :
    Option String × Manager :=
  match lookupTask m id with
  | none => (some "not found", m)
  | some t =>
    if t.status = .paused ∨ t.status = .failed then
      let m1 := m.updateTask id fun u => { u with status := .queued, error := "", updatedAt := now }
      let r := m1.sendQueue id pick
      (none, if r.fst then r.snd else r.snd.failTask id queueMsg now)
    else (some "not paused/failed", m)

/-- `Retry`: only valid from a terminal status; resets the progress fields
(`Progress`, `Percent`, `Speed`, `ETA`), the error and the log lines, sets
Queued and re-enqueues (failing the task on queue rejection). -/
def Manager.retry (m : Manager) (id : String) (now : Nat) (pick : Bool) :
    Option String × Manager :=
  match lookupTask m id with
  | none => (some "not found", m)
  | some t =>
    if t.status = .failed ∨ t.status = .completed ∨ t.status = .cancelled then
      let m1 := m.updateTask id fun u =>
        { u with status := .queued, progress := "0%", percent := 0,
                 speed := "", eta := "", error := "", logs := [], updatedAt := now }
      let r := m1.sendQueue id pick
      (none, if r.fst then r.snd else r.snd.failTask id queueMsg now)
    else (some ("cannot retry task in state " ++ statusStr t.status), m)

/-! ## Lexical path resolution (`path/filepath` on Unix)

`filepath.Abs` joins a relative path onto the working directory and applies
the purely lexical `filepath.Clean`; file identity below is the cleaned
absolute path (symbolic links are a filesystem construct outside this
model).  The working directory `wd` is what `os.Getwd` returns, always an
absolute path. -/

/-- Go `filepath.IsAbs` on Unix: `strings.HasPrefix(path, "/")`. -/
def isAbsGo (s : String) : Bool :=
  ("/" : String).data.isPrefixOf s.data

/-- Split a character list on `/` separators. -/
def splitSlash : List Char → List (List Char)
  | [] => [[]]
  | c :: rest =>
    if c = '/' then [] :: splitSlash rest
    else
      match splitSlash rest with
      | [] => [[c]]
      | seg :: segs => (c :: seg) :: segs

/-- One step of `filepath.Clean` for a rooted path: empty and `.` elements
vanish, `..` pops the previous element (or vanishes at the root), any
other element is kept. -/
def cleanStep (st : List (List Char)) (seg : List Char) : List (List Char) :=
  if seg = [] ∨ seg = ['.'] then st
  else if seg = ['.', '.'] then st.dropLast
  else st ++ [seg]

/-- Processed elements of a rooted path. -/
def cleanSegsAbs (segs : List (List Char)) : List (List Char) :=
  segs.foldl cleanStep []

/-- One step of `filepath.Clean` for a relative path: as `cleanStep`, but
leading `..` elements that have nothing to pop are kept. -/
def cleanStepRel (st : List (List Char)) (seg : List Char) : List (List Char) :=
  if seg = [] ∨ seg = ['.'] then st
  else if seg = ['.', '.'] then
    if st = [] ∨ st.getLast? = some ['.', '.'] then st ++ [seg] else st.dropLast
  else st ++ [seg]

/-- Processed elements of a relative path. -/
def cleanSegsRel (segs : List (List Char)) : List (List Char) :=
  segs.foldl cleanStepRel []

/-- Interleave `/` between path elements. -/
def joinSegs : List (List Char) → List Char
  | [] => []
  | [seg] => seg
  | seg :: rest => seg ++ '/' :: joinSegs rest

/-- Go `filepath.Clean` on Unix, on character lists. -/
def goCleanChars (s : List Char) : List Char :=
  match s with
  | [] => ['.']
  | '/' :: _ =>
    match cleanSegsAbs (splitSlash s) with
    | [] => ['/']
    | segs => '/' :: joinSegs segs
  | _ =>
    match cleanSegsRel (splitSlash s) with
    | [] => ['.']
    | segs => joinSegs segs

/-- Go `filepath.Clean` on strings. -/
def goClean (s : String) : String :=
  String.mk (goCleanChars s.data)

/-- Go `filepath.Abs`: clean an absolute path, or join onto the working
directory and clean. -/
def goAbs (wd p : String) : String :=
  if isAbsGo p then goClean p else goClean (wd ++ "/" ++ p)

/-- Go `strings.HasPrefix`. -/
def goHasPrefix (s pre : String) : Bool :=
  pre.data.isPrefixOf s.data

/-- Go `filepath.Ext`: the suffix starting at the final dot of the final
path element, empty if that element has no dot. -/
def goExtChars (s : List Char) : List Char :=
  let finalElem := s.reverse.takeWhile (fun c => c ≠ '/')
  if finalElem.any (fun c => c = '.') then
    ((finalElem.takeWhile (fun c => c ≠ '.')) ++ ['.']).reverse
  else []

/-- Strip `filepath.Ext` from the name, as the sibling-glob base
computation does. -/
def stripExt (s : String) : String :=
  match goExtChars s.data with
  | [] => s
  | ext => String.mk (s.data.take (s.data.length - ext.length))

/-- The glob-metacharacter escaping `removeTaskFiles` applies to the base
name (`[`, `]`, `?`, `*` each get a backslash). -/
def globEscape (s : String) : String :=
  String.mk (s.data.flatMap fun c =>
    if c = '[' ∨ c = ']' ∨ c = '?' ∨ c = '*' then ['\\', c] else [c])

/-- `removeTaskFiles` from `manager.go`, as the list of paths it removes.
The filesystem's answer to `filepath.Glob` is the oracle `glob`; every
`os.Remove` error is swallowed, so the removed-path list is all the model
needs.  An empty filename, or a filename whose absolute resolution is not
strictly inside the download directory, removes nothing; otherwise the
file plus its `.part`/`.ytdl` sidecars are removed, and each glob match is
removed only after its own absolute path passes the same check. -/
def removeTaskFilesTargets (wd dir filename : String) (glob : String → List String) :
    List String :=
  if filename = "" then []
  else if goHasPrefix (goAbs wd filename) (goAbs wd dir ++ "/") then
    [filename, filename ++ ".part", filename ++ ".ytdl"] ++
      (glob (globEscape (stripExt filename) ++ "*")).filter
        (fun mt => goHasPrefix (goAbs wd mt) (goAbs wd dir ++ "/"))
  else []

/-- `Delete`: best-effort cancel, remove from the registry and the order
slice, then remove the artifacts.  Returns the (always-nil) error, the new
state, and the removed paths. -/
def Manager.delete (m : Manager) (id : String) (now : Nat) (wd : String)
    (glob : String → List String) : Option String × Manager × List String :=
  let m1 := (m.cancel id now).snd
  match lookupTask m1 id with
  | none => (none, m1, [])
  | some t =>
    let m2 := { m1 with tasks := m1.tasks.filter (fun pr => ¬ pr.fst == id),
                        order := m1.order.filter (fun oid => ¬ oid == id) }
    (none, m2, removeTaskFilesTargets wd m.downloadDir t.filename glob)

/-- `ClearCompleted`: drop every terminal-status task from the registry and
order (Go map iteration order is arbitrary; the registry list order is one
admissible order), then remove each cleared task's artifacts. -/
def Manager.clearCompleted (m : Manager) (wd : String) (glob : String → List String) :
    Manager × Nat × List String :=
  let isTerm := fun (t : DTask) =>
    t.status = .completed ∨ t.status = .failed ∨ t.status = .cancelled
  let removed := m.tasks.filter (fun pr => isTerm pr.snd)
  let kept := m.tasks.filter (fun pr => ¬ isTerm pr.snd)
  let m2 := { m with tasks := kept,
                     order := m.order.filter (fun oid => kept.any (fun pr => pr.fst == oid)) }
  (m2, removed.length,
    (removed.map (fun pr => removeTaskFilesTargets wd m.downloadDir pr.snd.filename glob)).flatten)

/-! ## Go `strings.Contains` and concrete fixtures used by the
counterexamples and witnesses -/

/-- Does `sub` occur as a contiguous segment of `s`? -/
def containsChars (s sub : List Char) : Bool :=
  match s with
  | [] => sub.isEmpty
  | _ :: t => sub.isPrefixOf s || containsChars t sub

/-- Go `strings.Contains`. -/
def strContains (s sub : String) : Bool := containsChars s.data sub.data

/-- A freshly created task (`NewTask`) for the parser scenarios. -/
def tFresh : DTask := newTask "tid" "https://x/1" [] 0

/-- The spec's sample progress line. -/
def line45 : String := "[download]  45.2% of ~  85.49MiB at 2.48MiB/s ETA 00:27"

/-- A task whose title the parser already derived (differs from the URL). -/
def tDerived : DTask :=
  { tFresh with title := "My Video", filename := "My Video.webm" }

/-- A registry holding exactly one task. -/
def mgrOf (t : DTask) : Manager :=
  { tasks := [(t.id, t)], order := [t.id], queue := [], queueCap := 512,
    done := false, downloadDir := "/w/dl" }

/-- A running task with visible progress state. -/
def tRun : DTask :=
  { tFresh with id := "a", status := .running, progress := "50%", percent := 50,
                speed := "1MiB/s", eta := "00:10", logs := ["l1", "l2"] }

/-- A completed task. -/
def tDone : DTask := { tFresh with id := "a", status := .completed, percent := 100 }

/-- Registry with the running task. -/
def mgrRun : Manager := mgrOf tRun

/-- Registry with the completed task. -/
def mgrDone : Manager := mgrOf tDone

/-- A manager after `Shutdown` closed `done`, queue empty. -/
def mgrShut : Manager :=
  { tasks := [], order := [], queue := [], queueCap := 512, done := true,
    downloadDir := "/w/dl" }

/-- A fresh task submitted in the counterexample. -/
def tNew : DTask := newTask "n1" "https://x/1" [] 0

/-- Append characters to the final element of a segment list (used to
relate `splitSlash (s ++ ext)` to `splitSlash s` when `ext` contains no
separator). -/
def appendLast (ext : List Char) : List (List Char) → List (List Char)
  | [] => [ext]
  | [x] => [x ++ ext]
  | x :: y :: xs => x :: appendLast ext (y :: xs)

/-- The rooted-path rendering inside `goCleanChars` (proof helper). -/
def renderAbs (segs : List (List Char)) : List Char :=
  match segs with
  | [] => ['/']
  | seg :: rest => '/' :: joinSegs (seg :: rest)

/-! ## Helper lemmas -/

theorem find?_map_update (ts : List (String × DTask)) (id : String) (f : DTask → DTask) :
    (List.find? (fun pr => pr.fst == id)
        (ts.map (fun pr => if pr.fst == id then (pr.fst, f pr.snd) else pr))).map Prod.snd
      = ((List.find? (fun pr => pr.fst == id) ts).map Prod.snd).map f := by
  induction ts with
  | nil => rfl
  | cons pr rest ih =>
    rw [List.map_cons]
    cases h : (pr.fst == id) with
    | true =>
      rw [if_pos rfl]
      have h1 : List.find? (fun q => q.fst == id)
          ((pr.fst, f pr.snd) :: rest.map (fun q => if q.fst == id then (q.fst, f q.snd) else q))
          = some (pr.fst, f pr.snd) := List.find?_cons_of_pos _ h
      have h2 : List.find? (fun q => q.fst == id) (pr :: rest) = some pr :=
        List.find?_cons_of_pos _ h
      rw [h1, h2]
      rfl
    | false =>
      rw [if_neg (by simp)]
      have h1 : List.find? (fun q => q.fst == id)
          (pr :: rest.map (fun q => if q.fst == id then (q.fst, f q.snd) else q))
          = List.find? (fun q => q.fst == id)
              (rest.map (fun q => if q.fst == id then (q.fst, f q.snd) else q)) :=
        List.find?_cons_of_neg _ (by simp [h])
      have h2 : List.find? (fun q => q.fst == id) (pr :: rest)
          = List.find? (fun q => q.fst == id) rest :=
        List.find?_cons_of_neg _ (by simp [h])
      rw [h1, h2]
      exact ih

theorem lookup_update (m : Manager) (id : String) (f : DTask → DTask) :
    lookupTask (m.updateTask id f) id = (lookupTask m id).map f := by
  simp only [lookupTask, Manager.updateTask]
  exact find?_map_update m.tasks id f

theorem find?_append_self (id : String) (t : DTask) :
    ∀ ts : List (String × DTask), (∀ pr ∈ ts, (pr.fst == id) = false) →
      (List.find? (fun pr => pr.fst == id) (ts ++ [(id, t)])).map Prod.snd = some t := by
  intro ts
  induction ts with
  | nil =>
    intro _
    have h1 : List.find? (fun pr => pr.fst == id) ([(id, t)] : List (String × DTask))
        = some (id, t) := List.find?_cons_of_pos _ (by simp)
    rw [List.nil_append, h1]
    rfl
  | cons pr rest ih =>
    intro hall
    have hb : (pr.fst == id) = false := hall pr (by simp)
    have h1 : List.find? (fun q => q.fst == id) (pr :: (rest ++ [(id, t)]))
        = List.find? (fun q => q.fst == id) (rest ++ [(id, t)]) :=
      List.find?_cons_of_neg _ (by simp [hb])
    rw [List.cons_append, h1]
    exact ih (fun q hq => hall q (by simp [hq]))

theorem find?_map_replace (id : String) (t : DTask) :
    ∀ ts : List (String × DTask), (ts.any (fun pr => pr.fst == id)) = true →
      (List.find? (fun pr => pr.fst == id)
          (ts.map (fun pr => if pr.fst == id then (id, t) else pr))).map Prod.snd = some t := by
  intro ts
  induction ts with
  | nil => intro h; simp at h
  | cons pr rest ih =>
    intro h
    rw [List.map_cons]
    cases hb : (pr.fst == id) with
    | true =>
      rw [if_pos rfl]
      have h1 : List.find? (fun q => q.fst == id)
          ((id, t) :: rest.map (fun q => if q.fst == id then (id, t) else q)) = some (id, t) :=
        List.find?_cons_of_pos _ (by simp)
      rw [h1]
      rfl
    | false =>
      rw [if_neg (by simp)]
      have h1 : List.find? (fun q => q.fst == id)
          (pr :: rest.map (fun q => if q.fst == id then (id, t) else q))
          = List.find? (fun q => q.fst == id)
              (rest.map (fun q => if q.fst == id then (id, t) else q)) :=
        List.find?_cons_of_neg _ (by simp [hb])
      rw [h1]
      apply ih
      rw [List.any_cons, hb] at h
      simpa using h

theorem lookup_insert (ts : List (String × DTask)) (id : String) (t : DTask) :
    (List.find? (fun pr => pr.fst == id) (insertTask ts id t)).map Prod.snd = some t := by
  unfold insertTask
  cases ha : ts.any (fun pr => pr.fst == id) with
  | true =>
    rw [if_pos rfl]
    exact find?_map_replace id t ts ha
  | false =>
    rw [if_neg (by simp)]
    apply find?_append_self
    intro pr hpr
    cases hb : (pr.fst == id) with
    | true =>
      have hx : ts.any (fun q => q.fst == id) = true := List.any_eq_true.mpr ⟨pr, hpr, hb⟩
      rw [hx] at ha
      cases ha
    | false => rfl


theorem updateTask_queue (m : Manager) (id : String) (f : DTask → DTask) :
    (m.updateTask id f).queue = m.queue := rfl

theorem updateTask_done (m : Manager) (id : String) (f : DTask → DTask) :
    (m.updateTask id f).done = m.done := rfl

theorem updateTask_queueCap (m : Manager) (id : String) (f : DTask → DTask) :
    (m.updateTask id f).queueCap = m.queueCap := rfl

theorem updateTask_tasks (m : Manager) (id : String) (f : DTask → DTask) :
    (m.updateTask id f).tasks
      = m.tasks.map (fun pr => if pr.fst == id then (pr.fst, f pr.snd) else pr) := rfl

/-! ## Claim C4 -/

/-- C4: for a registered task whose status is Completed — or anything other
than Running, Queued or Paused — `Cancel` returns the invalid-transition
error naming the current status and performs no mutation at all: the
returned state is the input state, so every task field (status and
updatedAt included) is unchanged. -/
theorem cancel_invalid_transition_no_mutation (m : Manager) (id : String) (now : Nat)
    (t : DTask) (hfound : lookupTask m id = some t)
    (hr : t.status ≠ .running) (hq : t.status ≠ .queued) (hp : t.status ≠ .paused) :
    m.cancel id now = (some ("cannot cancel task in state " ++ statusStr t.status), m) := by
  unfold Manager.cancel
  simp only [hfound]

/-- Witness for C4: cancelling the concrete completed task. -/
theorem cancel_invalid_transition_no_mutation_witness :
    lookupTask mgrDone "a" = some tDone ∧ tDone.status = .completed ∧
    mgrDone.cancel "a" 3 = (some "cannot cancel task in state completed", mgrDone) :=
  ⟨rfl, rfl,
    cancel_invalid_transition_no_mutation mgrDone "a" 3 tDone rfl
      (by decide) (by decide) (by decide)⟩

/-! ## Claim C10 -/

/-- C10: `Delete` never returns an error (in particular no not-found
error), and for an unregistered id it leaves the registry, order and queue
unchanged and removes no file — so deleting the same id twice is
idempotent — whereas `Cancel`, `Pause`, `Resume` and `Retry` all answer
"not found" for that same id. -/
theorem delete_unknown_id_noop (m : Manager) (id wd : String)
    (glob : String → List String) (now : Nat) :
    (∀ j : String, (m.delete j now wd glob).fst = none) ∧
    (lookupTask m id = none →
      m.delete id now wd glob = (none, m, []) ∧
      (m.cancel id now).fst = some "not found" ∧
      (m.pause id now).fst = some "not found" ∧
      (m.resume id now true).fst = some "not found" ∧
      (m.retry id now true).fst = some "not found") := by
  constructor
  · intro j
    cases hld : lookupTask (m.cancel j now).snd j <;>
      simp [Manager.delete, hld]
  · intro h
    have hc : m.cancel id now = (some "not found", m) := by
      unfold Manager.cancel
      rw [h]
    refine ⟨?_, ?_, ?_, ?_, ?_⟩
    · simp [Manager.delete, hc, h]
    · rw [hc]
    · unfold Manager.pause
      rw [h]
    · unfold Manager.resume
      rw [h]
    · unfold Manager.retry
      rw [h]

/-- Witness for C10 at a concrete registry and unknown id. -/
theorem delete_unknown_id_noop_witness :
    lookupTask mgrDone "zzz" = none ∧
    mgrDone.delete "zzz" 7 "/w" (fun _ => []) = (none, mgrDone, []) ∧
    (mgrDone.cancel "zzz" 7).fst = some "not found" :=
  ⟨rfl,
    ((delete_unknown_id_noop mgrDone "zzz" "/w" (fun _ => []) 7).2 rfl).1,
    ((delete_unknown_id_noop mgrDone "zzz" "/w" (fun _ => []) 7).2 rfl).2.1⟩

/-! ## Claim C3 (corrected) -/

/-- C3 as stated is false: `Retry` on a task in a non-terminal status
(here Running) returns an invalid-transition error and resets nothing —
the scheduler state comes back unchanged, percent still 50, logs intact. -/
theorem retry_nonterminal_counterexample :
    (lookupTask mgrRun "a").map DTask.status = some .running ∧
    mgrRun.retry "a" 5 true = (some "cannot retry task in state running", mgrRun) :=
  ⟨rfl, rfl⟩

/-- C3 amended: for a registered task in a terminal status (Failed,
Completed or Cancelled), when the queue accepts the id (not full, not shut
down), `Retry` succeeds, resets progress to "0%", percent to 0, speed, ETA,
error to empty and the log to the empty sequence, stamps `updatedAt`, sets
status Queued and enqueues the id; from a non-terminal status it returns an
invalid-transition error instead (see the counterexample). -/
theorem retry_terminal_resets (m : Manager) (id : String) (now : Nat) (pick : Bool)
    (t : DTask) (hfound : lookupTask m id = some t)
    (hterm : t.status = .failed ∨ t.status = .completed ∨ t.status = .cancelled)
    (hroom : m.queue.length < m.queueCap) (hdone : m.done = false) :
    (m.retry id now pick).fst = none ∧
    lookupTask (m.retry id now pick).snd id = some
      { t with status := .queued, progress := "0%", percent := 0,
               speed := "", eta := "", error := "", logs := [], updatedAt := now } ∧
    (m.retry id now pick).snd.queue = m.queue ++ [id] := by
  unfold Manager.retry
  simp only [hfound, if_pos hterm, Manager.sendQueue,
    updateTask_done, updateTask_queue, updateTask_queueCap, hdone,
    Bool.false_eq_true, if_false, hroom, true_and, and_true, if_true]
  simp only [lookupTask, updateTask_tasks]
  have h2 : (List.find? (fun pr => pr.fst == id) m.tasks).map Prod.snd = some t := hfound
  refine (find?_map_update m.tasks id (fun u =>
      { u with status := .queued, progress := "0%", percent := 0,
               speed := "", eta := "", error := "", logs := [], updatedAt := now })).trans ?_
  rw [h2]
  rfl

/-- Witness for C3 amended: retrying the concrete completed task. -/
theorem retry_terminal_resets_witness :
    (mgrDone.retry "a" 9 true).fst = none ∧
    lookupTask (mgrDone.retry "a" 9 true).snd "a" = some
      { tDone with status := .queued, progress := "0%", percent := 0,
                   speed := "", eta := "", error := "", logs := [], updatedAt := 9 } ∧
    (mgrDone.retry "a" 9 true).snd.queue = mgrDone.queue ++ ["a"] :=
  retry_terminal_resets mgrDone "a" 9 true tDone rfl (Or.inr (Or.inl rfl))
    (by decide) rfl

/-! ## Claim C2 (corrected) -/

theorem fail_lookup_of (m1 : Manager) (id : String) (t : DTask) (now : Nat)
    (h : lookupTask m1 id = some t) :
    lookupTask (m1.failTask id queueMsg now) id
      = some
        { t with status := .failed, error := queueMsg,
                 logs := capAppend t.logs ("ERROR: " ++ queueMsg), updatedAt := now } := by
  unfold Manager.failTask
  rw [lookup_update, h]
  rfl

/-- C2 as stated is false in the shutdown case: with `done` closed and the
queue empty, Go's `select` may pick the ready send over the closed-`done`
receive (oracle `pick = true`); the submitted task is then enqueued and
left Queued, not Failed. -/
theorem submit_shutdown_counterexample :
    mgrShut.done = true ∧ mgrShut.queue.length < mgrShut.queueCap ∧
    (lookupTask (mgrShut.submit tNew 1 true) "n1").map DTask.status = some .queued ∧
    (mgrShut.submit tNew 1 true).queue = ["n1"] :=
  ⟨rfl, by decide, rfl, rfl⟩

/-- C2 amended: Submit always registers the task; when the pending queue is
full it immediately fails the task with the saturation message without
blocking; when the scheduler is shutting down and the select resolves to
the `done` branch it does the same; and in every case the submitted task is
either enqueued or Failed — it never stays Queued without being enqueued. -/
theorem submit_saturation_fails (m : Manager) (t : DTask) (now : Nat) (pick : Bool) :
    (m.queueCap ≤ m.queue.length →
      lookupTask (m.submit t now pick) t.id
        = some
          { t with status := .failed, error := queueMsg,
                   logs := capAppend t.logs ("ERROR: " ++ queueMsg), updatedAt := now }) ∧
    (m.done = true → pick = false →
      lookupTask (m.submit t now pick) t.id
        = some
          { t with status := .failed, error := queueMsg,
                   logs := capAppend t.logs ("ERROR: " ++ queueMsg), updatedAt := now }) ∧
    (t.id ∈ (m.submit t now pick).queue ∨
      (lookupTask (m.submit t now pick) t.id).map DTask.status = some .failed) := by
  refine ⟨?_, ?_, ?_⟩
  · intro hfull
    have hnl : ¬ (m.queue.length < m.queueCap) := not_lt.mpr hfull
    unfold Manager.submit Manager.sendQueue
    simp only [hnl, false_and, and_false, if_false, ite_self, Bool.false_eq_true]
    exact fail_lookup_of
      { tasks := insertTask m.tasks t.id t, order := m.order ++ [t.id], queue := m.queue,
        queueCap := m.queueCap, done := m.done, downloadDir := m.downloadDir }
      t.id t now (lookup_insert m.tasks t.id t)
  · intro hd hp
    unfold Manager.submit Manager.sendQueue
    simp only [hd, hp, Bool.false_eq_true, and_false, if_false, if_true]
    exact fail_lookup_of
      { tasks := insertTask m.tasks t.id t, order := m.order ++ [t.id], queue := m.queue,
        queueCap := m.queueCap, done := true, downloadDir := m.downloadDir }
      t.id t now (lookup_insert m.tasks t.id t)
  · unfold Manager.submit Manager.sendQueue
    cases hd : m.done
    · by_cases hlen : m.queue.length < m.queueCap
      · left
        simp [hd, hlen]
      · right
        simp only [hd, hlen, Bool.false_eq_true, if_false]
        rw [fail_lookup_of
          { tasks := insertTask m.tasks t.id t, order := m.order ++ [t.id], queue := m.queue,
            queueCap := m.queueCap, done := false, downloadDir := m.downloadDir }
          t.id t now (lookup_insert m.tasks t.id t)]
        rfl
    · by_cases hcp : m.queue.length < m.queueCap ∧ pick = true
      · left
        simp [hd, hcp]
      · right
        simp only [hd, hcp, Bool.false_eq_true, if_false, if_true]
        rw [fail_lookup_of
          { tasks := insertTask m.tasks t.id t, order := m.order ++ [t.id], queue := m.queue,
            queueCap := m.queueCap, done := true, downloadDir := m.downloadDir }
          t.id t now (lookup_insert m.tasks t.id t)]
        rfl

/-- Witness for C2 amended: submitting to a concrete full queue (capacity
zero here) immediately fails the task. -/
theorem submit_saturation_fails_witness :
    lookupTask (({ mgrShut with done := false, queueCap := 0 } : Manager).submit tNew 4 true)
        "n1"
      = some
        { tNew with status := .failed, error := queueMsg,
                    logs := capAppend tNew.logs ("ERROR: " ++ queueMsg), updatedAt := 4 } :=
  (submit_saturation_fails { mgrShut with done := false, queueCap := 0 } tNew 4 true).1
    (by decide)

/-! ## Claim C9 (corrected) -/

/-- C9 as stated is false: `Pause` on a task whose status is Completed is
an invalid transition, yet the returned message is the fixed string
"not running", which does not include the current status. -/
theorem pause_message_counterexample :
    (lookupTask mgrDone "a").map DTask.status = some .completed ∧
    (mgrDone.pause "a" 3).fst = some "not running" ∧
    strContains "not running" (statusStr .completed) = false :=
  ⟨rfl, rfl, by decide⟩

/-- C9 amended: `Cancel` and `Retry` report invalid transitions with a
message that does include the task's current status; `Pause` and `Resume`
report them with the fixed messages "not running" and "not paused/failed",
which do not mention the current status. -/
theorem invalid_transition_messages (m : Manager) (id : String) (now : Nat) (pick : Bool)
    (t : DTask) (hfound : lookupTask m id = some t) :
    (t.status ≠ .running → t.status ≠ .queued → t.status ≠ .paused →
      (m.cancel id now).fst = some ("cannot cancel task in state " ++ statusStr t.status) ∧
      strContains ("cannot cancel task in state " ++ statusStr t.status)
        (statusStr t.status) = true) ∧
    (t.status ≠ .failed → t.status ≠ .completed → t.status ≠ .cancelled →
      (m.retry id now pick).fst = some ("cannot retry task in state " ++ statusStr t.status) ∧
      strContains ("cannot retry task in state " ++ statusStr t.status)
        (statusStr t.status) = true) ∧
    (t.status ≠ .running → (m.pause id now).fst = some "not running") ∧
    (t.status ≠ .paused → t.status ≠ .failed →
      (m.resume id now pick).fst = some "not paused/failed") := by
  refine ⟨?_, ?_, ?_, ?_⟩
  · intro hr hq hp
    have hc : m.cancel id now
        = (some ("cannot cancel task in state " ++ statusStr t.status), m) := by
      unfold Manager.cancel
      simp only [hfound]
    refine ⟨by rw [hc], ?_⟩
    cases t.status <;> decide
  · intro h1 h2 h3
    have hnot : ¬ (t.status = .failed ∨ t.status = .completed ∨ t.status = .cancelled) := by
      rintro (h | h | h) <;> contradiction
    unfold Manager.retry
    simp only [hfound]
    rw [if_neg hnot]
    refine ⟨rfl, ?_⟩
    cases t.status <;> decide
  · intro hr
    unfold Manager.pause
    simp only [hfound]
    rw [if_neg hr]
  · intro h1 h2
    have hnot : ¬ (t.status = .paused ∨ t.status = .failed) := by
      rintro (h | h) <;> contradiction
    unfold Manager.resume
    simp only [hfound]
    rw [if_neg hnot]

/-- Witness for C9 amended, on the concrete completed task. -/
theorem invalid_transition_messages_witness :
    (mgrDone.pause "a" 3).fst = some "not running" ∧
    (mgrDone.resume "a" 3 true).fst = some "not paused/failed" ∧
    (mgrDone.cancel "a" 3).fst = some "cannot cancel task in state completed" ∧
    strContains "cannot cancel task in state completed" "completed" = true :=
  ⟨(invalid_transition_messages mgrDone "a" 3 true tDone rfl).2.2.1 (by decide),
   (invalid_transition_messages mgrDone "a" 3 true tDone rfl).2.2.2 (by decide) (by decide),
   ((invalid_transition_messages mgrDone "a" 3 true tDone rfl).1
     (by decide) (by decide) (by decide)).1,
   ((invalid_transition_messages mgrDone "a" 3 true tDone rfl).1
     (by decide) (by decide) (by decide)).2⟩

/-! ## Claim C7 -/

/-- C7: feeding the spec's sample progress line to `ParseLine` on a fresh
task reports a change and yields percent 45.2, size "85.49MiB", speed
"2.48MiB/s", ETA "00:27" (and the display string "45.2%"). -/
theorem progress_line_scenario :
    (ParseLine line45 tFresh).fst = true ∧
    (ParseLine line45 tFresh).snd.percent = (45.2 : Rat) ∧
    (ParseLine line45 tFresh).snd.size = "85.49MiB" ∧
    (ParseLine line45 tFresh).snd.speed = "2.48MiB/s" ∧
    (ParseLine line45 tFresh).snd.eta = "00:27" ∧
    (ParseLine line45 tFresh).snd.progress = "45.2%" := by
  refine ⟨rfl, ?_, rfl, rfl, rfl, rfl⟩
  rw [show (ParseLine line45 tFresh).snd.percent = mkRat 452 10 from rfl, Rat.mkRat_eq_div]
  norm_num

/-! ## Claim C6 -/

/-- C6: a line on which all five patterns fail to match makes `ParseLine`
report "no change" and return the task with every field untouched. -/
theorem parse_no_match_no_change (line : String) (t : DTask)
    (h1 : findSub reProgress line = none) (h2 : findSub reComplete line = none)
    (h3 : findSub reDestination line = none) (h4 : findSub reMerger line = none)
    (h5 : findSub reAlreadyDl line = none) :
    ParseLine line t = (false, t) := by
  unfold ParseLine
  rw [h1, h2, h3, h4, h5]

/-- Witness for C6: a `[youtube]` informational line matches no pattern. -/
theorem parse_no_match_no_change_witness :
    findSub reProgress "[youtube] Extracting URL: https://x/1" = none ∧
    findSub reComplete "[youtube] Extracting URL: https://x/1" = none ∧
    findSub reDestination "[youtube] Extracting URL: https://x/1" = none ∧
    findSub reMerger "[youtube] Extracting URL: https://x/1" = none ∧
    findSub reAlreadyDl "[youtube] Extracting URL: https://x/1" = none ∧
    ParseLine "[youtube] Extracting URL: https://x/1" tFresh = (false, tFresh) :=
  ⟨by decide, by decide, by decide, by decide, by decide,
   parse_no_match_no_change _ tFresh (by decide) (by decide) (by decide) (by decide)
     (by decide)⟩

/-! ## Claim C8 -/

/-- C8: for any line, a title that no longer equals the original URL and is
non-empty is never overwritten by the parser; destination, merger and
already-downloaded matches still update the filename (trimmed for
destination and already-downloaded, verbatim for merger). -/
theorem parse_title_overwrite_rule (line : String) (t : DTask)
    (hT : t.title ≠ t.url) (hE : t.title ≠ "") :
    (ParseLine line t).snd.title = t.title ∧
    (∀ caps, findSub reProgress line = none → findSub reComplete line = none →
      findSub reDestination line = some caps →
      (ParseLine line t).snd.filename = goTrimSpace (capGet caps 1)) ∧
    (∀ caps, findSub reProgress line = none → findSub reComplete line = none →
      findSub reDestination line = none → findSub reMerger line = some caps →
      (ParseLine line t).snd.filename = capGet caps 1) ∧
    (∀ caps, findSub reProgress line = none → findSub reComplete line = none →
      findSub reDestination line = none → findSub reMerger line = none →
      findSub reAlreadyDl line = some caps →
      (ParseLine line t).snd.filename = goTrimSpace (capGet caps 1)) := by
  have hno : ¬ (t.title = t.url ∨ t.title = "") := by
    rintro (h | h) <;> contradiction
  refine ⟨?_, ?_, ?_, ?_⟩
  · unfold ParseLine
    cases hp : findSub reProgress line with
    | some m =>
      cases hpf : parseGoFloat (capGet m 1) <;>
        by_cases h3 : capGet m 3 ≠ "" <;> by_cases h4 : capGet m 4 ≠ "" <;>
          simp [hpf, h3, h4]
    | none =>
      cases hc : findSub reComplete line with
      | some m => rfl
      | none =>
        cases hd : findSub reDestination line with
        | some m =>
          simp only [if_neg hno]
        | none =>
          cases hm : findSub reMerger line with
          | some m => rfl
          | none =>
            cases ha : findSub reAlreadyDl line with
            | some m =>
              simp only [if_neg hno]
            | none => rfl
  · intro caps h1 h2 h3
    unfold ParseLine
    rw [h1, h2, h3]
    simp only [if_neg hno]
  · intro caps h1 h2 h3 h4
    unfold ParseLine
    rw [h1, h2, h3, h4]
  · intro caps h1 h2 h3 h4 h5
    unfold ParseLine
    rw [h1, h2, h3, h4, h5]
    simp only [if_neg hno]

/-- Witness for C8: a destination line neither overwrites the derived
title "My Video" nor fails to update the filename. -/
theorem parse_title_overwrite_rule_witness :
    (ParseLine "[download] Destination: dir/v.mp4" tDerived).snd.title = tDerived.title ∧
    (ParseLine "[download] Destination: dir/v.mp4" tDerived).snd.filename = "dir/v.mp4" := by
  have h := parse_title_overwrite_rule "[download] Destination: dir/v.mp4" tDerived
    (by decide) (by decide)
  refine ⟨h.1, ?_⟩
  have h2 := h.2.1 [(1, "dir/v.mp4".data)] (by decide) (by decide) (by decide)
  exact h2.trans (by decide)

/-! ## Claim C5 -/

theorem capAppend_drop (pre : List String) (l : String) :
    capAppend (pre.drop (pre.length - 500)) l
      = (pre ++ [l]).drop (pre.length + 1 - 500) := by
  unfold capAppend
  by_cases h : pre.length < 500
  · have h0 : pre.length - 500 = 0 := by omega
    have h1 : pre.length + 1 - 500 = 0 := by omega
    rw [h0, h1, List.drop_zero, List.drop_zero]
    rw [if_neg (by simp [List.length_append]; omega)]
  · have h5 : 500 ≤ pre.length := by omega
    have hlen : (pre.drop (pre.length - 500)).length = 500 := by
      rw [List.length_drop]; omega
    rw [if_pos (by simp [List.length_append, hlen])]
    have hstep : (pre.drop (pre.length - 500) ++ [l]).length - 500 = 1 := by
      simp [List.length_append, hlen]
    rw [hstep]
    rw [List.drop_append_of_le_length (by omega), List.drop_append_of_le_length (by omega)]
    rw [List.drop_drop]
    have harg : pre.length - 500 + 1 = pre.length + 1 - 500 := by omega
    rw [harg]

theorem foldl_capAppend (ls : List String) : ∀ pre : List String,
    List.foldl capAppend (pre.drop (pre.length - 500)) ls
      = (pre ++ ls).drop ((pre ++ ls).length - 500) := by
  induction ls with
  | nil => intro pre; rw [List.append_nil, List.foldl_nil]
  | cons l ls ih =>
    intro pre
    rw [List.foldl_cons, capAppend_drop]
    have h2 : pre.length + 1 - 500 = (pre ++ [l]).length - 500 := by
      simp [List.length_append]
    rw [h2, ih (pre ++ [l]), List.append_assoc]
    rfl

theorem logs_foldl (now : Nat) (ls : List String) : ∀ t : DTask,
    ((ls.foldl (fun a l => DTask.addLog a l now) t).logs)
      = List.foldl capAppend t.logs ls := by
  induction ls with
  | nil => intro t; rfl
  | cons l ls ih =>
    intro t
    rw [List.foldl_cons, List.foldl_cons, ih]
    rfl

/-- C5: appending any sequence of lines through `AddLog` to a task whose
log was last reset to empty leaves exactly the suffix of at most 500 of
those lines (oldest evicted first, order preserved), so the log length
never exceeds 500. -/
theorem log_cap_fifo (ls : List String) (t : DTask) (now : Nat) (h : t.logs = []) :
    ((ls.foldl (fun a l => DTask.addLog a l now) t).logs
      = ls.drop (ls.length - 500)) ∧
    ((ls.foldl (fun a l => DTask.addLog a l now) t).logs).length ≤ 500 := by
  have he : (ls.foldl (fun a l => DTask.addLog a l now) t).logs
      = ls.drop (ls.length - 500) := by
    rw [logs_foldl, h]
    have h0 := foldl_capAppend ls []
    simpa using h0
  refine ⟨he, ?_⟩
  rw [he, List.length_drop]
  omega

/-- Witness for C5 on a fresh task and a concrete line sequence. -/
theorem log_cap_fifo_witness :
    ((["x1", "x2", "x3"].foldl (fun a l => DTask.addLog a l 2) tFresh).logs
      = ["x1", "x2", "x3"].drop (["x1", "x2", "x3"].length - 500)) ∧
    ((["x1", "x2", "x3"].foldl (fun a l => DTask.addLog a l 2) tFresh).logs).length ≤ 500 :=
  log_cap_fifo ["x1", "x2", "x3"] tFresh 2 rfl

/-! ## Claim C1 -/

theorem splitSlash_ne_nil : ∀ s : List Char, splitSlash s ≠ [] := by
  intro s
  induction s with
  | nil => simp [splitSlash]
  | cons c r ih =>
    unfold splitSlash
    by_cases hc : c = '/'
    · simp [hc]
    · rw [if_neg hc]
      cases hs : splitSlash r with
      | nil => simp
      | cons seg segs => simp

theorem appendLast_cons (e x : List Char) (xs : List (List Char)) (h : xs ≠ []) :
    appendLast e (x :: xs) = x :: appendLast e xs := by
  cases xs with
  | nil => exact absurd rfl h
  | cons y ys => rfl

theorem splitSlash_no_slash (e : List Char) (he : ∀ c ∈ e, c ≠ '/') :
    splitSlash e = [e] := by
  induction e with
  | nil => rfl
  | cons c r ih =>
    unfold splitSlash
    rw [if_neg (he c (by simp))]
    rw [ih (fun c hc => he c (by simp [hc]))]

theorem splitSlash_append (e : List Char) (he : ∀ c ∈ e, c ≠ '/') :
    ∀ s : List Char, splitSlash (s ++ e) = appendLast e (splitSlash s) := by
  intro s
  induction s with
  | nil =>
    rw [List.nil_append, splitSlash_no_slash e he]
    rfl
  | cons c r ih =>
    rw [List.cons_append]
    unfold splitSlash
    by_cases hc : c = '/'
    · rw [if_pos hc, if_pos hc, ih,
        appendLast_cons e [] (splitSlash r) (splitSlash_ne_nil r)]
    · rw [if_neg hc, if_neg hc, ih]
      cases hs : splitSlash r with
      | nil => exact absurd hs (splitSlash_ne_nil r)
      | cons seg segs =>
        cases segs with
        | nil => rfl
        | cons seg2 segs2 =>
          rw [appendLast_cons e seg (seg2 :: segs2) (by simp)]
          rw [appendLast_cons e (c :: seg) (seg2 :: segs2) (by simp)]

theorem appendLast_snoc (e y : List Char) : ∀ xs : List (List Char),
    appendLast e (xs ++ [y]) = xs ++ [y ++ e] := by
  intro xs
  induction xs with
  | nil => rfl
  | cons x xs ih =>
    rw [List.cons_append, appendLast_cons e x (xs ++ [y]) (by simp), ih]
    rfl

theorem cleanSegsAbs_snoc (xs : List (List Char)) (y : List Char) :
    cleanSegsAbs (xs ++ [y]) = cleanStep (cleanSegsAbs xs) y := by
  unfold cleanSegsAbs
  rw [List.foldl_append]
  rfl

theorem joinSegs_snoc (y : List Char) : ∀ xs : List (List Char), xs ≠ [] →
    joinSegs (xs ++ [y]) = joinSegs xs ++ '/' :: y := by
  intro xs
  induction xs with
  | nil => intro h; exact absurd rfl h
  | cons x xs ih =>
    intro _
    cases xs with
    | nil => rfl
    | cons x2 xs2 =>
      show joinSegs (x :: (x2 :: xs2 ++ [y])) = (x ++ '/' :: joinSegs (x2 :: xs2)) ++ '/' :: y
      have hstep : joinSegs (x :: (x2 :: xs2 ++ [y]))
          = x ++ '/' :: joinSegs (x2 :: xs2 ++ [y]) := by
        cases hxx : x2 :: xs2 ++ [y] with
        | nil => simp at hxx
        | cons a as =>
          cases as with
          | nil =>
            rcases xs2 with _ | ⟨b, bs⟩
            · simp at hxx
            · simp at hxx
          | cons a2 as2 => rfl
      rw [hstep, ih (by simp), List.append_assoc]
      rfl

theorem joinSegs_affix (y e : List Char) : ∀ xs : List (List Char),
    joinSegs (xs ++ [y ++ e]) = joinSegs (xs ++ [y]) ++ e := by
  intro xs
  cases hx : xs with
  | nil => rfl
  | cons a as =>
    rw [joinSegs_snoc (y ++ e) (a :: as) (by simp), joinSegs_snoc y (a :: as) (by simp),
      List.append_assoc]
    rfl

theorem goCleanChars_abs (r : List Char) :
    goCleanChars ('/' :: r) = renderAbs (cleanSegsAbs (splitSlash ('/' :: r))) := by
  unfold goCleanChars renderAbs
  cases cleanSegsAbs (splitSlash ('/' :: r)) with
  | nil => rfl
  | cons a as => rfl

theorem renderAbs_cons (C : List (List Char)) (h : C ≠ []) :
    renderAbs C = '/' :: joinSegs C := by
  cases C with
  | nil => exact absurd rfl h
  | cons a as => rfl

theorem pre_cons_append (d l t : List Char) (h : d <+: '/' :: l) :
    d <+: '/' :: (l ++ t) := by
  have he : ('/' :: (l ++ t) : List Char) = ('/' :: l) ++ t := rfl
  rw [he]
  exact h.trans (List.prefix_append _ _)

theorem pre_slash_contra (d : List Char) (hd : d ≠ []) :
    ¬ ((d ++ ['/']) <+: (['/'] : List Char)) := by
  intro h
  have hl := h.length_le
  simp [List.length_append] at hl
  exact hd hl

theorem prefix_renderAbs_snoc (d : List Char) (C : List (List Char)) (x : List Char)
    (hd : d ≠ []) (h : (d ++ ['/']) <+: renderAbs C) :
    (d ++ ['/']) <+: renderAbs (C ++ [x]) := by
  cases hC : C with
  | nil =>
    rw [hC] at h
    exact absurd h (pre_slash_contra d hd)
  | cons a as =>
    rw [hC] at h
    rw [renderAbs_cons ((a :: as) ++ [x]) (by simp),
      joinSegs_snoc x (a :: as) (by simp)]
    rw [renderAbs_cons (a :: as) (by simp)] at h
    exact pre_cons_append (d ++ ['\x2f']) _ _ h

theorem prefix_renderAbs_dropLast (d : List Char) (C : List (List Char))
    (hd : d ≠ []) (h : (d ++ ['/']) <+: renderAbs C.dropLast) :
    (d ++ ['/']) <+: renderAbs C := by
  rcases List.eq_nil_or_concat C with hnil | ⟨xs, y, hxy⟩
  · rw [hnil] at h ⊢
    exact h
  · rw [List.concat_eq_append] at hxy
    subst hxy
    rw [List.dropLast_concat] at h
    exact prefix_renderAbs_snoc d xs y hd h

theorem prefix_renderAbs_affix (d : List Char) (C : List (List Char)) (y e : List Char)
    (h : (d ++ ['/']) <+: renderAbs (C ++ [y])) :
    (d ++ ['/']) <+: renderAbs (C ++ [y ++ e]) := by
  rw [renderAbs_cons (C ++ [y]) (by simp)] at h
  rw [renderAbs_cons (C ++ [y ++ e]) (by simp), joinSegs_affix y e C]
  exact pre_cons_append (d ++ ['\x2f']) _ _ h

theorem clean_ext_prefix (r e d : List Char)
    (he : ∀ c ∈ e, c ≠ '/') (hlen : 3 ≤ e.length) (hd : d ≠ [])
    (hpre : (d ++ ['/']) <+: goCleanChars ('/' :: r)) :
    (d ++ ['/']) <+: goCleanChars (('/' :: r) ++ e) := by
  rw [goCleanChars_abs r] at hpre
  have hcons : ('/' :: r) ++ e = '/' :: (r ++ e) := rfl
  rw [hcons, goCleanChars_abs (r ++ e)]
  have hne := splitSlash_ne_nil ('/' :: r)
  obtain ⟨xs, y, hxy⟩ : ∃ xs y, splitSlash ('/' :: r) = xs ++ [y] := by
    rcases List.eq_nil_or_concat (splitSlash ('/' :: r)) with h0 | ⟨xs, y, h1⟩
    · exact absurd h0 hne
    · rw [List.concat_eq_append] at h1
      exact ⟨xs, y, h1⟩
  have hsplit2 : splitSlash ('/' :: (r ++ e)) = xs ++ [y ++ e] := by
    have h2 : ('/' :: (r ++ e)) = ('/' :: r) ++ e := rfl
    rw [h2, splitSlash_append e he, hxy, appendLast_snoc]
  rw [hsplit2, cleanSegsAbs_snoc]
  rw [hxy, cleanSegsAbs_snoc] at hpre
  have hye1 : ¬ (y ++ e = [] ∨ y ++ e = ['.']) := by
    rintro (h | h)
    · have hl : y.length + e.length = 0 := by
        rw [← List.length_append, h]
        rfl
      omega
    · have hl : y.length + e.length = 1 := by
        rw [← List.length_append, h]
        rfl
      omega
  have hye2 : ¬ (y ++ e = ['.', '.']) := by
    intro h
    have hl : y.length + e.length = 2 := by
      rw [← List.length_append, h]
      rfl
    omega
  rw [show cleanStep (cleanSegsAbs xs) (y ++ e) = cleanSegsAbs xs ++ [y ++ e] from by
    unfold cleanStep
    rw [if_neg hye1, if_neg hye2]]
  by_cases h1 : y = [] ∨ y = ['.']
  · unfold cleanStep at hpre
    rw [if_pos h1] at hpre
    exact prefix_renderAbs_snoc d (cleanSegsAbs xs) (y ++ e) hd hpre
  · by_cases h2 : y = ['.', '.']
    · unfold cleanStep at hpre
      rw [if_neg h1, if_pos h2] at hpre
      exact prefix_renderAbs_snoc d (cleanSegsAbs xs) (y ++ e) hd
        (prefix_renderAbs_dropLast d (cleanSegsAbs xs) hd hpre)
    · unfold cleanStep at hpre
      rw [if_neg h1, if_neg h2] at hpre
      exact prefix_renderAbs_affix d (cleanSegsAbs xs) y e hpre

theorem isAbs_data (s : String) (h : isAbsGo s = true) : ∃ r, s.data = '/' :: r := by
  unfold isAbsGo at h
  obtain ⟨t, ht⟩ := List.isPrefixOf_iff_prefix.mp h
  exact ⟨t, ht.symm⟩

theorem isAbs_of_head (s : String) (r : List Char) (h : s.data = '/' :: r) :
    isAbsGo s = true := by
  unfold isAbsGo
  exact List.isPrefixOf_iff_prefix.mpr ⟨r, h.symm⟩

theorem joinSegs_ne_nil_of (segs : List (List Char)) (hne : segs ≠ [])
    (hall : ∀ x ∈ segs, x ≠ []) : joinSegs segs ≠ [] := by
  cases segs with
  | nil => exact absurd rfl hne
  | cons x xs =>
    cases xs with
    | nil => exact hall x (by simp)
    | cons y ys =>
      show x ++ '/' :: joinSegs (y :: ys) ≠ []
      simp

theorem cleanStepRel_all (st : List (List Char)) (seg : List Char)
    (h : ∀ x ∈ st, x ≠ []) : ∀ x ∈ cleanStepRel st seg, x ≠ [] := by
  unfold cleanStepRel
  by_cases h1 : seg = [] ∨ seg = ['.']
  · rw [if_pos h1]
    exact h
  · rw [if_neg h1]
    by_cases h2 : seg = ['.', '.']
    · rw [if_pos h2]
      by_cases h3 : st = [] ∨ st.getLast? = some ['.', '.']
      · rw [if_pos h3]
        intro x hx
        rcases List.mem_append.mp hx with hx | hx
        · exact h x hx
        · simp at hx
          rw [hx, h2]
          simp
      · rw [if_neg h3]
        intro x hx
        exact h x ((List.dropLast_sublist st).subset hx)
    · rw [if_neg h2]
      intro x hx
      rcases List.mem_append.mp hx with hx | hx
      · exact h x hx
      · simp at hx
        rw [hx]
        intro hc
        exact h1 (Or.inl hc)

theorem cleanSegsRel_all (segs : List (List Char)) :
    ∀ x ∈ cleanSegsRel segs, x ≠ [] := by
  unfold cleanSegsRel
  have hgen : ∀ (ss : List (List Char)) (st : List (List Char)),
      (∀ x ∈ st, x ≠ []) → ∀ x ∈ List.foldl cleanStepRel st ss, x ≠ [] := by
    intro ss
    induction ss with
    | nil => intro st h; exact h
    | cons a as ih =>
      intro st h
      rw [List.foldl_cons]
      exact ih (cleanStepRel st a) (cleanStepRel_all st a h)
  exact hgen segs [] (by simp)

theorem goCleanChars_ne_nil (s : List Char) : goCleanChars s ≠ [] := by
  unfold goCleanChars
  split
  · simp
  · split
    · simp
    · simp
  · split
    · simp
    · rename_i hsegs
      apply joinSegs_ne_nil_of
      · intro hc
        exact hsegs hc
      · exact cleanSegsRel_all _

theorem goAbs_ext_prefix (wd f ext dS : String)
    (hwd : isAbsGo wd = true) (hf : f.data ≠ [])
    (he : ∀ c ∈ ext.data, c ≠ '/') (hlen : 3 ≤ ext.data.length)
    (hdne : dS.data ≠ [])
    (hpre : goHasPrefix (goAbs wd f) (dS ++ "/") = true) :
    goHasPrefix (goAbs wd (f ++ ext)) (dS ++ "/") = true := by
  unfold goHasPrefix at hpre ⊢
  rw [List.isPrefixOf_iff_prefix] at hpre ⊢
  have hdata : (dS ++ "/").data = dS.data ++ ['/'] := by
    rw [String.data_append]
  rw [hdata] at hpre ⊢
  by_cases habs : isAbsGo f = true
  · obtain ⟨rf, hrf⟩ := isAbs_data f habs
    have habs2 : isAbsGo (f ++ ext) = true := by
      apply isAbs_of_head (f ++ ext) (rf ++ ext.data)
      rw [String.data_append, hrf, List.cons_append]
    unfold goAbs
    rw [if_pos habs2]
    unfold goAbs at hpre
    rw [if_pos habs] at hpre
    have h1 : (goClean f).data = goCleanChars ('/' :: rf) := by
      show goCleanChars f.data = _
      rw [hrf]
    have h2 : (goClean (f ++ ext)).data = goCleanChars (('/' :: rf) ++ ext.data) := by
      show goCleanChars (f ++ ext).data = _
      rw [String.data_append, hrf]
    rw [h2]
    rw [h1] at hpre
    exact clean_ext_prefix rf ext.data dS.data he hlen hdne hpre
  · rw [Bool.not_eq_true] at habs
    have hfe : isAbsGo (f ++ ext) = false := by
      cases hfd : f.data with
      | nil => exact absurd hfd hf
      | cons c cs =>
        by_cases hc : c = '/'
        · exfalso
          rw [hc] at hfd
          have := isAbs_of_head f cs hfd
          rw [habs] at this
          cases this
        · have hbeq : ('/' == c) = false := by
            rcases Bool.eq_false_or_eq_true ('/' == c) with hb | hb
            · exact absurd (eq_of_beq hb).symm hc
            · exact hb
          show ("/" : String).data.isPrefixOf (f ++ ext).data = false
          rw [String.data_append, hfd]
          show List.isPrefixOf ['/'] (c :: (cs ++ ext.data)) = false
          simp [List.isPrefixOf, hbeq]
    obtain ⟨rwd, hrw⟩ := isAbs_data wd hwd
    unfold goAbs
    rw [if_neg (by rw [hfe]; simp)]
    unfold goAbs at hpre
    rw [if_neg (by rw [habs]; simp)] at hpre
    have hs1 : (wd ++ "/" ++ f).data = '/' :: (rwd ++ '/' :: f.data) := by
      rw [String.data_append, String.data_append, hrw]
      simp
    have hs2 : (wd ++ "/" ++ (f ++ ext)).data
        = ('/' :: (rwd ++ '/' :: f.data)) ++ ext.data := by
      rw [String.data_append, String.data_append, String.data_append, hrw]
      simp
    have h1 : (goClean (wd ++ "/" ++ f)).data
        = goCleanChars ('/' :: (rwd ++ '/' :: f.data)) := by
      show goCleanChars (wd ++ "/" ++ f).data = _
      rw [hs1]
    have h2 : (goClean (wd ++ "/" ++ (f ++ ext))).data
        = goCleanChars (('/' :: (rwd ++ '/' :: f.data)) ++ ext.data) := by
      show goCleanChars (wd ++ "/" ++ (f ++ ext)).data = _
      rw [hs2]
    rw [h2]
    rw [h1] at hpre
    exact clean_ext_prefix _ ext.data dS.data he hlen hdne hpre

theorem goAbs_data_ne_nil (wd p : String) : (goAbs wd p).data ≠ [] := by
  unfold goAbs
  split
  · show goCleanChars p.data ≠ []
    exact goCleanChars_ne_nil _
  · show goCleanChars (wd ++ "/" ++ p).data ≠ []
    exact goCleanChars_ne_nil _

/-- C1: `removeTaskFiles` (the artifact-deletion routine Delete and
ClearCompleted share) is path-safe under lexical resolution: when the
filename's absolute resolution is not strictly inside the download root it
removes nothing at all, and every path it does remove — the file itself,
its `.part`/`.ytdl` sidecars, and each glob-matched sibling — has an
absolute resolution strictly inside the download root, for every working
directory, download directory, adversarial filename (`..` segments and
glob metacharacters included) and every filesystem answer to the glob. -/
theorem removeTaskFiles_path_safety (wd dir filename : String)
    (glob : String → List String) (hwd : isAbsGo wd = true) :
    (goHasPrefix (goAbs wd filename) (goAbs wd dir ++ "/") = false →
      removeTaskFilesTargets wd dir filename glob = []) ∧
    (∀ p ∈ removeTaskFilesTargets wd dir filename glob,
      goHasPrefix (goAbs wd p) (goAbs wd dir ++ "/") = true) := by
  constructor
  · intro hfalse
    unfold removeTaskFilesTargets
    by_cases h0 : filename = ""
    · rw [if_pos h0]
    · rw [if_neg h0, if_neg (by rw [hfalse]; simp)]
  · intro p hp
    unfold removeTaskFilesTargets at hp
    by_cases h0 : filename = ""
    · rw [if_pos h0] at hp
      cases hp
    · rw [if_neg h0] at hp
      by_cases hin : goHasPrefix (goAbs wd filename) (goAbs wd dir ++ "/") = true
      · rw [if_pos hin] at hp
        have hfd : filename.data ≠ [] := by
          intro hc
          apply h0
          cases filename with
          | mk l =>
            have hl : l = [] := hc
            rw [hl]
        rcases List.mem_append.mp hp with hmem | hmem
        · simp only [List.mem_cons, List.not_mem_nil, or_false] at hmem
          rcases hmem with rfl | rfl | rfl
          · exact hin
          · exact goAbs_ext_prefix wd filename ".part" (goAbs wd dir) hwd hfd
              (by decide) (by decide) (goAbs_data_ne_nil wd dir) hin
          · exact goAbs_ext_prefix wd filename ".ytdl" (goAbs wd dir) hwd hfd
              (by decide) (by decide) (goAbs_data_ne_nil wd dir) hin
        · exact (List.mem_filter.mp hmem).2
      · rw [if_neg hin] at hp
        cases hp


/-- Witness for C1: a benign name keeps exactly its own artifacts and the
in-root sibling (the out-of-root glob answers are skipped); a
`..`-traversal name removes nothing. -/
theorem removeTaskFiles_path_safety_witness :
    isAbsGo "/w" = true ∧
    removeTaskFilesTargets "/w" "/w/dl" "dl/v.mp4"
        (fun _ => ["dl/v.info.json", "/etc/passwd", "../../etc/shadow"])
      = ["dl/v.mp4", "dl/v.mp4.part", "dl/v.mp4.ytdl", "dl/v.info.json"] ∧
    goHasPrefix (goAbs "/w" "dl/v.mp4.part") (goAbs "/w" "/w/dl" ++ "/") = true ∧
    removeTaskFilesTargets "/w" "/w/dl" "../../etc/passwd" (fun _ => ["x"]) = [] :=
  ⟨by decide, by decide,
   (removeTaskFiles_path_safety "/w" "/w/dl" "dl/v.mp4"
     (fun _ => ["dl/v.info.json", "/etc/passwd", "../../etc/shadow"]) (by decide)).2
     "dl/v.mp4.part" (by decide),
   (removeTaskFiles_path_safety "/w" "/w/dl" "../../etc/passwd"
     (fun _ => ["x"]) (by decide)).1 (by decide)⟩
